import Mathlib

/-!
Verification development for the macOS launch-item manager
(`launch_manager.py`).  Text is modelled as `List Char`; the pure cores of
the program's methods are translated directly from the source.  Python's
`str.lower` / `str.upper` perform a full Unicode case mapping, character by
character, where a single character may map to several (e.g. U+00DF `ß`
uppercases to `SS`); they are modelled here as per-character
character-to-string mappings, exact on the ASCII range and on U+00DF, with
the remaining code points kept as fixed points (no statement below
quantifies over a character whose Python mapping differs from the model's).
-/

/-- Python `text.find(pat)`, as an optional index (`none` for `-1`):
the least `i` such that `pat` occurs in `s` starting at `i`. -/
def strFind (pat s : List Char) : Option Nat :=
  if pat.isPrefixOf s then some 0
  else
    match s with
    | [] => none
    | _ :: t => (strFind pat t).map (· + 1)

/-- Python `text.rfind(pat)`, on a prefix slice: the greatest `i` such
that `pat` occurs in `s` starting at `i`. -/
def strRFind (pat s : List Char) : Option Nat :=
  match s with
  | [] => if pat.isEmpty then some 0 else none
  | _ :: t =>
    match strRFind pat t with
    | some i => some (i + 1)
    | none => if pat.isPrefixOf s then some 0 else none

/-- Python's `pat in s` substring test. -/
def containsSub (pat s : List Char) : Bool :=
  (strFind pat s).isSome

/-- Pattern `pat` occurs in `s` at position `i`. -/
def occursAt (pat s : List Char) (i : Nat) : Bool :=
  pat.isPrefixOf (s.drop i)

theorem strFind_some {pat s : List Char} {i : Nat} (h : strFind pat s = some i) :
    occursAt pat s i = true ∧ ∀ j, j < i → occursAt pat s j = false := by
  induction s generalizing i with
  | nil =>
    unfold strFind at h
    split at h
    · rename_i hp
      cases h
      exact ⟨hp, fun j hj => absurd hj (Nat.not_lt_zero j)⟩
    · cases h
  | cons c t ih =>
    unfold strFind at h
    split at h
    · rename_i hp
      cases h
      exact ⟨hp, fun j hj => absurd hj (Nat.not_lt_zero j)⟩
    · rename_i hp
      rcases Option.map_eq_some'.mp h with ⟨i', hi', rfl⟩
      rcases ih hi' with ⟨h1, h2⟩
      refine ⟨h1, fun j hj => ?_⟩
      cases j with
      | zero =>
        simp only [occursAt, List.drop_zero]
        cases hb : pat.isPrefixOf (c :: t)
        · rfl
        · exact absurd hb hp
      | succ j' =>
        have : j' < i' := Nat.lt_of_succ_lt_succ hj
        simpa [occursAt, List.drop_succ_cons] using h2 j' this

theorem strFind_none {pat s : List Char} (h : strFind pat s = none) :
    ∀ i, occursAt pat s i = false := by
  induction s with
  | nil =>
    intro i
    unfold strFind at h
    split at h
    · cases h
    · rename_i hp
      simp only [occursAt, List.drop_nil]
      cases hb : pat.isPrefixOf ([] : List Char)
      · rfl
      · exact absurd hb hp
  | cons c t ih =>
    intro i
    unfold strFind at h
    split at h
    · cases h
    · rename_i hp
      have ht : strFind pat t = none := by
        cases hf : strFind pat t
        · rfl
        · simp [hf] at h
      cases i with
      | zero =>
        cases hb : pat.isPrefixOf (c :: t)
        · simp [occursAt, hb]
        · exact absurd hb hp
      | succ i' =>
        simpa [occursAt, List.drop_succ_cons] using ih ht i'

theorem strFind_isSome_of_occurs {pat s : List Char} {i : Nat}
    (h : occursAt pat s i = true) : ∃ k, strFind pat s = some k := by
  cases hf : strFind pat s with
  | none => exact absurd h (by simp [strFind_none hf i])
  | some k => exact ⟨k, rfl⟩

/-- Validity of the relevant ASCII code points. -/
theorem isValidChar_of_lt (n : Nat) (h : n < 55296) : Nat.isValidChar n :=
  Or.inl h

theorem char_toNat_ofNat_valid (n : Nat) (h : n < 55296) :
    (Char.ofNat n).toNat = n := by
  unfold Char.ofNat
  rw [dif_pos (isValidChar_of_lt n h)]
  rfl

/-- Python `str.lower()` of one character: the full Unicode lowercase
mapping, which for a single character is in general a string.  The model
is exact on ASCII (the 26-letter code-point shift) and on U+00DF (`ß`,
a fixed point of lowercasing); the remaining code points are kept as
fixed points. -/
def pyLower (c : Char) : List Char :=
  if c.toNat ≥ 65 ∧ c.toNat ≤ 90 then [Char.ofNat (c.toNat + 32)] else [c]

/-- Python `str.upper()` of one character: the full Unicode uppercase
mapping, which for a single character is in general a string — in
particular U+00DF (`ß`) uppercases to the two-letter string `SS`.  The
model is exact on ASCII and on U+00DF; the remaining code points are kept
as fixed points. -/
def pyUpper (c : Char) : List Char :=
  if c.toNat = 223 then "SS".toList
  else if c.toNat ≥ 97 ∧ c.toNat ≤ 122 then [Char.ofNat (c.toNat - 32)]
  else [c]

/-- Python `str.lower()` over a whole string: the concatenation of the
per-character mappings. -/
def pyLowerS : List Char → List Char
  | [] => []
  | c :: t => pyLower c ++ pyLowerS t

/-- Python `str.upper()` over a whole string: the concatenation of the
per-character mappings. -/
def pyUpperS : List Char → List Char
  | [] => []
  | c :: t => pyUpper c ++ pyUpperS t

theorem pyLowerS_append (a b : List Char) :
    pyLowerS (a ++ b) = pyLowerS a ++ pyLowerS b := by
  induction a with
  | nil => rfl
  | cons c t ih => simp [pyLowerS, ih]

theorem pyLowerS_upper_char (c : Char) (h : c.toNat < 128) :
    pyLowerS (pyUpper c) = pyLowerS (pyLower c) := by
  have h223 : ¬c.toNat = 223 := by omega
  by_cases hl : c.toNat ≥ 97 ∧ c.toNat ≤ 122
  · have hnu : ¬(c.toNat ≥ 65 ∧ c.toNat ≤ 90) := by omega
    have ht : (Char.ofNat (c.toNat - 32)).toNat = c.toNat - 32 :=
      char_toNat_ofNat_valid _ (by omega)
    have hu : (Char.ofNat (c.toNat - 32)).toNat ≥ 65 ∧
        (Char.ofNat (c.toNat - 32)).toNat ≤ 90 := by omega
    simp only [pyUpper, pyLower, if_neg h223, if_pos hl, if_neg hnu]
    simp only [pyLowerS, List.append_nil]
    simp only [pyLower, if_pos hu, if_neg hnu, ht]
    have hback : c.toNat - 32 + 32 = c.toNat := by omega
    rw [hback, Char.ofNat_toNat]
    rw [if_pos (show c.toNat - 32 ≥ 65 ∧ c.toNat - 32 ≤ 90 by omega)]
  · by_cases hu2 : c.toNat ≥ 65 ∧ c.toNat ≤ 90
    · have ht : (Char.ofNat (c.toNat + 32)).toNat = c.toNat + 32 :=
        char_toNat_ofNat_valid _ (by omega)
      have hn2 : ¬((Char.ofNat (c.toNat + 32)).toNat ≥ 65 ∧
          (Char.ofNat (c.toNat + 32)).toNat ≤ 90) := by omega
      simp only [pyUpper, pyLower, if_neg h223, if_neg hl, if_pos hu2]
      simp only [pyLowerS, List.append_nil]
      simp only [pyLower, if_pos hu2, if_neg hn2]
    · simp only [pyUpper, pyLower, if_neg h223, if_neg hl, if_neg hu2]

theorem pyLowerS_pyUpperS_ascii (t : List Char) (h : ∀ c ∈ t, c.toNat < 128) :
    pyLowerS (pyUpperS t) = pyLowerS (pyLowerS t) := by
  induction t with
  | nil => rfl
  | cons c t ih =>
    have hc : c.toNat < 128 := h c (List.mem_cons_self c t)
    have ht : ∀ d ∈ t, d.toNat < 128 := fun d hd => h d (List.mem_cons_of_mem c hd)
    show pyLowerS (pyUpper c ++ pyUpperS t) = pyLowerS (pyLower c ++ pyLowerS t)
    rw [pyLowerS_append, pyLowerS_append, ih ht, pyLowerS_upper_char c hc]

/-- The `SearchResult` class of the source: `(file_name, folder_path, folder_index)`. -/
structure SearchResult where
  file_name : List Char
  folder_path : List Char
  folder_index : Nat
deriving DecidableEq

/-- The body of `LaunchManager.search_files` once the search term has been
lowercased (the method stores `self.search_input.text().lower()` in
`search_term` and uses only that).  `af` models `self.all_files`
(`{folder_index: {file_name: file_path}}`) as an association list, and
`flds` models `self.folders`. -/
def searchCore (t : List Char) (flds : List (List Char))
    (af : List (Nat × List (List Char × List Char))) : List SearchResult :=
  if t.isEmpty then []
  else
    (af.map fun fd =>
      (fd.2.filter fun np => containsSub t (pyLowerS np.1)).map
        fun np => SearchResult.mk np.1 (flds.getD fd.1 []) fd.1).flatten

/-- Model of `LaunchManager.search_files`: lowercase the term, return nothing when it
is empty, otherwise collect every file whose lowercased name contains the
term, in catalog order. -/
def search_files (term : List Char) (flds : List (List Char))
    (af : List (Nat × List (List Char × List Char))) : List SearchResult :=
  searchCore (pyLowerS term) flds af

/-- The `self.path_patterns` list of `WorkingDirectoryHighlighter`. -/
def path_patterns : List (List Char) :=
  ["/Applications/".toList, "/Application Support/".toList, "/Library/".toList]

/-- The `<string>` opening tag searched by the highlighter. -/
def sTag : List Char := "<string>".toList

/-- The `</string>` closing tag searched by the highlighter. -/
def eTag : List Char := "</string>".toList

/-- The `<key>WorkingDirectory</key>` marker. -/
def wdKey : List Char := "<key>WorkingDirectory</key>".toList

/-- The first pattern of `path_patterns` contained in `text`, in the fixed
order of the list (the `for pattern in self.path_patterns` loop). -/
def firstHit (text : List Char) : Option (List Char) :=
  path_patterns.find? fun p => containsSub p text

/-- The extra `setFormat` span computed by `highlightBlock` after the
whole-line span: the enclosing quoted span when a quote follows the match,
otherwise the enclosing `<string>...</string>` span when one surrounds the
match.  `start` is `text.find(pattern)`. -/
def narrowSpan (text : List Char) (start : Nat) : Option (Nat × Nat) :=
  if containsSub ['"'] (text.drop start) then
    match strRFind ['"'] (text.take start), strFind ['"'] (text.drop start) with
    | some qs, some k => some (qs, start + k + 1 - qs)
    | _, _ => none
  else if containsSub sTag (text.take start) && containsSub eTag (text.drop start) then
    match strRFind sTag (text.take start), strFind eTag (text.drop start) with
    | some ts, some k => some (ts, start + k + eTag.length - ts)
    | _, _ => none
  else none

/-- Model of `WorkingDirectoryHighlighter.highlightBlock` as a pure function: input
the carried `found_working_dir_key` flag and the line, output the list of
`setFormat` spans (offset, length) and the new flag.  When a path pattern
is found the method formats the whole line, possibly re-formats an
enclosing quoted/tagged span, and returns early (leaving the flag
untouched); otherwise it only updates the flag. -/
def highlightBlock (found : Bool) (text : List Char) : List (Nat × Nat) × Bool :=
  match firstHit text with
  | some p =>
    let start := (strFind p text).getD 0
    ((0, text.length) :: (narrowSpan text start).toList, found)
  | none =>
    ([],
      if containsSub wdKey text then true
      else if found && containsSub sTag text then false
      else if !containsSub sTag text then false
      else found)

/-- Position `i` of the line lies inside one of the emitted spans. -/
def emphasizedAt (spans : List (Nat × Nat)) (i : Nat) : Bool :=
  spans.any fun sp => sp.1 ≤ i && i < sp.1 + sp.2

/-- Run the highlighter over consecutive lines, threading the carried flag,
and return the final flag. -/
def processLines (st : Bool) (ls : List (List Char)) : Bool :=
  ls.foldl (fun s l => (highlightBlock s l).2) st

/-- First pattern searched by `_scroll_to_working_directory`. -/
def appPat : List Char := "/Applications/".toList

/-- Second pattern searched by `_scroll_to_working_directory`. -/
def appSupPat : List Char := "/Application Support/".toList

/-- The pure core of `LaunchManager._scroll_to_working_directory`: the
offset the cursor is moved to, `none` when the method returns `False`
without moving it.  It tries `/Applications/`, then
`/Application Support/`, then `<key>WorkingDirectory</key>`. -/
def locateHighlightTarget (content : List Char) : Option Nat :=
  match strFind appPat content with
  | some i => some i
  | none =>
    match strFind appSupPat content with
    | some i => some i
    | none => strFind wdKey content

/-- Model of `LaunchManager.load_file_preview` as a pure function over the outcomes
of its effects.  `ex` models `os.path.exists(file_path)`; `plu` models the
`subprocess.run(['plutil', ...])` call (`.error e` when the invocation
itself raises, `.ok (rc, out)` for returncode `rc` and captured stdout);
`raw` models `open(file_path).read()` (`.error e` when the read raises).
The result is the text finally placed in the preview pane; the Python
`except` clause turns any raised exception into a placeholder, so the
function is total. -/
def load_file_preview (ex : Bool) (plu : Except (List Char) (Int × List Char))
    (raw : Except (List Char) (List Char)) (path : List Char) : List Char :=
  if ex then
    match plu with
    | .ok rcout =>
      if rcout.1 = 0 then rcout.2
      else
        match raw with
        | .ok c => c
        | .error e => "无法读取文件内容: ".toList ++ e
    | .error e => "无法读取文件内容: ".toList ++ e
  else "文件不存在: ".toList ++ path

/-- Spec-side definition for the refinement claim, following the spec's
words: the content obtained by "reading the file as UTF-8 text directly",
when that read succeeds. -/
def directReadText (raw : Except (List Char) (List Char)) : Option (List Char) :=
  match raw with
  | .ok c => some c
  | .error _ => none

/-- Python `os.path.join` for the paths this program builds. -/
def pathJoin (a b : List Char) : List Char :=
  if b.head? = some '/' then b
  else if a.isEmpty then b
  else if a.getLast? = some '/' then a ++ b
  else a ++ '/' :: b

/-- Python `name.endswith('.plist')`. -/
def endsWithPlist (n : List Char) : Bool :=
  ".plist".toList.isSuffixOf n

/-- What the filesystem reports for one directory: whether
`os.path.exists` is true, and the `os.listdir` outcome (`none` models a
raised `PermissionError`). -/
structure DirView where
  exists_ : Bool
  listing : Option (List (List Char))

/-- The filesystem as seen through the calls the program makes per
directory path. -/
def FsView : Type := List Char → DirView

/-- The `self.folders` list, built in `LaunchManager.__init__`:
`os.path.expanduser("~/Library/LaunchAgents")` plus four fixed system
directories. -/
def folders (home : List Char) : List (List Char) :=
  [home ++ "/Library/LaunchAgents".toList,
   "/System/Library/LaunchAgents".toList,
   "/System/Library/LaunchDaemons".toList,
   "/Library/LaunchAgents".toList,
   "/Library/LaunchDaemons".toList]

/-- The body of the `load_all_files` loop for one directory: an empty
dictionary when the directory does not exist or `os.listdir` raises
`PermissionError`, otherwise each `.plist` entry mapped to
`os.path.join(folder_path, file)`. -/
def procFolder (fs : FsView) (p : List Char) : List (List Char × List Char) :=
  if (fs p).exists_ then
    match (fs p).listing with
    | some files => (files.filter endsWithPlist).map fun n => (n, pathJoin p n)
    | none => []
  else []

/-- Model of `LaunchManager.load_all_files`: rebuild `self.all_files` wholesale,
one dictionary per configured directory index. -/
def load_all_files (flds : List (List Char)) (fs : FsView) :
    List (List (List Char × List Char)) :=
  flds.map (procFolder fs)

/-- Model of `LaunchManager.load_files`: the file names shown for the currently
selected folder row (empty when the row is out of range, the folder does
not exist, or listing raises `PermissionError` — those paths show a
warning dialog and leave the cleared list empty). -/
def load_files (flds : List (List Char)) (currentRow : Nat) (fs : FsView) :
    List (List Char) :=
  if currentRow < flds.length then
    let v := fs (flds.getD currentRow [])
    if v.exists_ then
      match v.listing with
      | some files => files.filter endsWithPlist
      | none => []
    else []
  else []

/-- One selected file in `delete_file`, together with what the filesystem
calls made for it report: `os.path.exists`, `os.access(..., os.W_OK)`, and
whether `os.remove` raises (`some msg` models a raised exception whose
`str` is `msg`). -/
structure DelItem where
  name : List Char
  exists_ : Bool
  writable : Bool
  removeExc : Option (List Char)
deriving DecidableEq

/-- The per-file error entry appended by the `delete_file` loop, `none`
when the file is removed successfully. -/
def delErr (it : DelItem) : Option (List Char) :=
  if it.exists_ then
    if it.writable then
      match it.removeExc with
      | none => none
      | some m => some (it.name ++ ": ".toList ++ m)
    else some (it.name ++ ": 权限不足".toList)
  else some (it.name ++ ": 文件不存在".toList)

/-- The file passes both checks and `os.remove` succeeds. -/
def delOk (it : DelItem) : Bool :=
  it.exists_ && it.writable && it.removeExc.isNone

/-- The `for item in selected_items` loop of `delete_file`, accumulating
`success_count` and `error_messages`. -/
def deleteLoop (acc : Nat × List (List Char)) : List DelItem → Nat × List (List Char)
  | [] => acc
  | it :: rest =>
    let acc' :=
      if it.exists_ then
        if it.writable then
          match it.removeExc with
          | none => (acc.1 + 1, acc.2)
          | some m => (acc.1, acc.2 ++ [it.name ++ ": ".toList ++ m])
        else (acc.1, acc.2 ++ [it.name ++ ": 权限不足".toList])
      else (acc.1, acc.2 ++ [it.name ++ ": 文件不存在".toList])
    deleteLoop acc' rest

/-- Decimal rendering of a count, for the summary messages. -/
def natRepr (n : Nat) : List Char := (Nat.repr n).toList

/-- The message of the success dialog of `delete_file`. -/
def successMsg (n : Nat) (errs : List (List Char)) : List Char :=
  "成功删除 ".toList ++ natRepr n ++ " 个文件。".toList ++
    (if errs.isEmpty then []
     else "\n\n删除失败的文件:\n".toList ++ List.intercalate ['\n'] errs)

/-- The message of the failure dialog of `delete_file`. -/
def failMsg (errs : List (List Char)) : List Char :=
  "没有文件被删除。\n\n".toList ++ List.intercalate ['\n'] errs

/-- The mutable UI state `delete_file` can touch. -/
structure UiState where
  all_files : List (List (List Char × List Char))
  file_list : List (List Char)
  search_input : List Char
  search_results : List SearchResult
deriving DecidableEq

/-- The dialog shown at the end of a `delete_file` call. -/
inductive DeleteOutcome where
  | infoNoSelection
  | resultInfo (msg : List Char)
  | resultWarn (msg : List Char)
deriving DecidableEq

/-- Model of `LaunchManager.refresh_all`: re-run `load_all_files`, re-run
`load_files` for the current folder row, and clear the search input and
the search results. -/
def refresh_all (home : List Char) (fs : FsView) (currentRow : Nat) : UiState :=
  { all_files := load_all_files (folders home) fs
    file_list := load_files (folders home) currentRow fs
    search_input := []
    search_results := [] }

/-- Model of `LaunchManager.delete_file` as a pure function: `sel` is the selected
items (with the filesystem outcomes their checks will report), `replyYes`
the answer to the confirmation dialog, `fs` the filesystem view the
subsequent `refresh_all` re-enumerates.  Returns the new UI state and the
dialog shown, `none` when no dialog appears (the `No` answer). -/
def delete_file (home : List Char) (fs : FsView) (currentRow : Nat)
    (st : UiState) (sel : List DelItem) (replyYes : Bool) :
    UiState × Option DeleteOutcome :=
  if sel.isEmpty then (st, some .infoNoSelection)
  else if replyYes then
    let r := deleteLoop (0, []) sel
    let st' := refresh_all home fs currentRow
    if r.1 > 0 then (st', some (.resultInfo (successMsg r.1 r.2)))
    else (st', some (.resultWarn (failMsg r.2)))
  else (st, none)

theorem strFind_eq_none {pat s : List Char} (h : ∀ i, occursAt pat s i = false) :
    strFind pat s = none := by
  cases hf : strFind pat s with
  | none => rfl
  | some k => exact absurd (strFind_some hf).1 (by simp [h k])

/-- The example line of the spec for tag-span narrowing. -/
def exLineC1 : List Char := "  <string>/Library/LaunchAgents/com.foo.plist</string>".toList

/-- Claim C1, counterexample: on the spec's own example line the highlighter
emphasizes position 0 (the leading whitespace), although the enclosing
`<string>...</string>` span only begins at offset 2 — the emphasis is not
"exactly that enclosing span". -/
theorem c1_counterexample :
    emphasizedAt (highlightBlock false exLineC1).1 0 = true ∧
    strFind sTag exLineC1 = some 2 := by decide

/-- Claim C1, amended: when a line contains a path-marker pattern, the
highlighter emphasizes the entire line; when a quoted or
`<string>...</string>` span encloses the match it additionally emits that
span as a second `setFormat` call with the same format, but the emphasis
is never narrowed: every position of the line stays emphasized. -/
theorem c1_amended (st : Bool) (text p : List Char) (hp : firstHit text = some p) :
    (∀ i, i < text.length → emphasizedAt (highlightBlock st text).1 i = true) ∧
    (∀ sp, narrowSpan text ((strFind p text).getD 0) = some sp →
      sp ∈ (highlightBlock st text).1) := by
  unfold highlightBlock
  rw [hp]
  constructor
  · intro i hi
    simp [emphasizedAt, hi]
  · intro sp hsp
    simp [hsp]

/-- Claim C1, witness: the amended statement evaluated on the spec's example
line — position 0 is emphasized, and the tag span `(2, 52)` is among the
emitted spans. -/
theorem c1_witness :
    emphasizedAt (highlightBlock false exLineC1).1 0 = true ∧
    (2, 52) ∈ (highlightBlock false exLineC1).1 :=
  ⟨(c1_amended false exLineC1 "/Library/".toList (by decide)).1 0 (by decide),
   (c1_amended false exLineC1 "/Library/".toList (by decide)).2 (2, 52) (by decide)⟩

/-- The whitespace-only search term of the claim. -/
def wsTerm : List Char := "   ".toList

/-- A catalog whose single file name contains three consecutive spaces. -/
def wsCatalog : List (Nat × List (List Char × List Char)) :=
  [(0, [("a   b.plist".toList, "/L/a   b.plist".toList)])]

/-- Claim C2, counterexample: searching with the whitespace-only term `"   "`
over a catalog containing the file `a   b.plist` returns a non-empty
result sequence — the code only special-cases the empty term and treats
whitespace as an ordinary substring. -/
theorem c2_counterexample :
    search_files wsTerm ["/L".toList] wsCatalog ≠ [] := by decide

/-- Claim C2, amended: searching with an empty term returns the empty sequence;
a whitespace-only term such as `"   "` is not special-cased — it returns
exactly the catalog entries whose lowercased file name contains that
whitespace substring. -/
theorem c2_amended (flds : List (List Char))
    (af : List (Nat × List (List Char × List Char))) :
    search_files [] flds af = [] ∧
    ∀ r, r ∈ search_files wsTerm flds af ↔
      ∃ fd ∈ af, ∃ np ∈ fd.2, containsSub wsTerm (pyLowerS np.1) = true ∧
        r = SearchResult.mk np.1 (flds.getD fd.1 []) fd.1 := by
  constructor
  · rfl
  · intro r
    show r ∈ searchCore (pyLowerS wsTerm) flds af ↔ _
    have hws : pyLowerS wsTerm = wsTerm := by decide
    rw [hws]
    unfold searchCore
    rw [if_neg (by decide : ¬(wsTerm.isEmpty = true))]
    constructor
    · intro hr
      rcases List.mem_flatten.mp hr with ⟨l, hl, hrl⟩
      rcases List.mem_map.mp hl with ⟨fd, hfd, rfl⟩
      rcases List.mem_map.mp hrl with ⟨np, hnp, rfl⟩
      rcases List.mem_filter.mp hnp with ⟨hmem, hq⟩
      exact ⟨fd, hfd, np, hmem, hq, rfl⟩
    · rintro ⟨fd, hfd, np, hnp, hq, rfl⟩
      exact List.mem_flatten.mpr ⟨_, List.mem_map.mpr ⟨fd, hfd, rfl⟩,
        List.mem_map.mpr ⟨np, List.mem_filter.mpr ⟨hnp, hq⟩, rfl⟩⟩

/-- Claim C2, witness: the amended statement evaluated on the concrete
whitespace catalog — the matching file is returned. -/
theorem c2_witness :
    SearchResult.mk "a   b.plist".toList "/L".toList 0 ∈
      search_files wsTerm ["/L".toList] wsCatalog :=
  ((c2_amended ["/L".toList] wsCatalog).2 _).mpr
    ⟨(0, [("a   b.plist".toList, "/L/a   b.plist".toList)]), by decide,
     ("a   b.plist".toList, "/L/a   b.plist".toList), by decide, by decide, rfl⟩

/-- A line containing only the working-directory key marker. -/
def keyLine : List Char := "<key>WorkingDirectory</key>".toList

/-- A value line whose string content is a path-marker path. -/
def strLibLine : List Char := "<string>/Library/a</string>".toList

/-- A line with neither a path marker, the key, nor a string tag. -/
def plainLine : List Char := "no markers here".toList

/-- Claim C3, counterexample: the key line sets the tracked flag, but when the
immediately following line contains a path-marker pattern (here a
`<string>` value holding `/Library/...`), `highlightBlock` returns early
before the state bookkeeping, so after that following line has been
processed the flag is still set — it is not cleared. -/
theorem c3_counterexample :
    containsSub wdKey keyLine = true ∧
    processLines false [keyLine, strLibLine] = true := by decide

/-- Claim C3, amended: a line containing `<key>WorkingDirectory</key>` (and no
path-marker pattern) sets the tracked flag; the flag is cleared once the
following line has been processed provided that line contains no
path-marker pattern and does not itself contain the key, but a following
line that contains a path-marker pattern leaves the flag set (the early
return skips the state handling), so the state can persist beyond two
consecutive lines. -/
theorem c3_amended (st : Bool) (l1 l2 : List Char)
    (h1 : firstHit l1 = none) (hk : containsSub wdKey l1 = true) :
    (highlightBlock st l1).2 = true ∧
    (firstHit l2 = none → containsSub wdKey l2 = false →
      (highlightBlock (highlightBlock st l1).2 l2).2 = false) ∧
    (∀ q, firstHit l2 = some q →
      (highlightBlock (highlightBlock st l1).2 l2).2 = true) := by
  have hs : (highlightBlock st l1).2 = true := by
    unfold highlightBlock
    rw [h1]
    simp [hk]
  refine ⟨hs, fun h2 hk2 => ?_, fun q hq => ?_⟩
  · rw [hs]
    unfold highlightBlock
    rw [h2]
    cases hc : containsSub sTag l2 <;> simp [hk2, hc]
  · rw [hs]
    unfold highlightBlock
    rw [hq]

/-- Claim C3, witness: the amended statement on concrete lines — the key line
sets the flag, a plain following line clears it, and a following line with
a path marker leaves it set. -/
theorem c3_witness :
    (highlightBlock false keyLine).2 = true ∧
    (highlightBlock (highlightBlock false keyLine).2 plainLine).2 = false ∧
    (highlightBlock (highlightBlock false keyLine).2 strLibLine).2 = true :=
  ⟨(c3_amended false keyLine plainLine (by decide) (by decide)).1,
   (c3_amended false keyLine plainLine (by decide) (by decide)).2.1
     (by decide) (by decide),
   (c3_amended false keyLine strLibLine (by decide) (by decide)).2.2
     "/Library/".toList (by decide)⟩

/-- Claim C4: `locateHighlightTarget` returns the offset of the first
occurrence of `/Applications/` when one exists; failing that, the first
occurrence of `/Application Support/`; failing that, the first occurrence
of `<key>WorkingDirectory</key>`; and `none` when none of the three
occurs.  In particular a text containing both the key and
`/Applications/` yields the path marker's offset. -/
theorem c4_locate (content : List Char) :
    ((∃ i, occursAt appPat content i = true) →
      ∃ i, locateHighlightTarget content = some i ∧
        occursAt appPat content i = true ∧
        ∀ j, j < i → occursAt appPat content j = false) ∧
    ((∀ i, occursAt appPat content i = false) →
      (∃ i, occursAt appSupPat content i = true) →
      ∃ i, locateHighlightTarget content = some i ∧
        occursAt appSupPat content i = true ∧
        ∀ j, j < i → occursAt appSupPat content j = false) ∧
    ((∀ i, occursAt appPat content i = false) →
      (∀ i, occursAt appSupPat content i = false) →
      (∃ i, occursAt wdKey content i = true) →
      ∃ i, locateHighlightTarget content = some i ∧
        occursAt wdKey content i = true ∧
        ∀ j, j < i → occursAt wdKey content j = false) ∧
    ((∀ i, occursAt appPat content i = false) →
      (∀ i, occursAt appSupPat content i = false) →
      (∀ i, occursAt wdKey content i = false) →
      locateHighlightTarget content = none) := by
  refine ⟨?_, ?_, ?_, ?_⟩
  · rintro ⟨i, hi⟩
    rcases strFind_isSome_of_occurs hi with ⟨k, hk⟩
    exact ⟨k, by unfold locateHighlightTarget; rw [hk],
      (strFind_some hk).1, (strFind_some hk).2⟩
  · intro hA ⟨i, hi⟩
    rcases strFind_isSome_of_occurs hi with ⟨k, hk⟩
    refine ⟨k, ?_, (strFind_some hk).1, (strFind_some hk).2⟩
    unfold locateHighlightTarget
    rw [strFind_eq_none hA, hk]
  · intro hA hS ⟨i, hi⟩
    rcases strFind_isSome_of_occurs hi with ⟨k, hk⟩
    refine ⟨k, ?_, (strFind_some hk).1, (strFind_some hk).2⟩
    unfold locateHighlightTarget
    rw [strFind_eq_none hA, strFind_eq_none hS, hk]
  · intro hA hS hK
    unfold locateHighlightTarget
    rw [strFind_eq_none hA, strFind_eq_none hS, strFind_eq_none hK]

/-- The spec's example text containing both the key marker and an
`/Applications/` path. -/
def ex4 : List Char :=
  "...<key>WorkingDirectory</key><string>/Applications/Foo.app</string>...".toList

/-- Claim C4, witness: on the example text with both markers, the path marker's
offset (38) is returned, taking priority over the bare key marker. -/
theorem c4_witness :
    ∃ i, locateHighlightTarget ex4 = some i ∧
      occursAt appPat ex4 i = true ∧
      ∀ j, j < i → occursAt appPat ex4 j = false :=
  (c4_locate ex4).1 ⟨38, by decide⟩

/-- The sharp-s character U+00DF, whose Python uppercase is the two-letter
string `SS` while its lowercase is itself. -/
def eszett : Char := 'ß'

/-- A catalog whose single file name contains the substring `ss`. -/
def ssCatalog : List (Nat × List (List Char × List Char)) :=
  [(0, [("boss.plist".toList, "/L/boss.plist".toList)])]

/-- Claim C5, counterexample: for the term `"ß"`, uppercasing gives `"SS"`
whose lowercased form `"ss"` matches the file `boss.plist`, while the
lowercased term stays `"ß"` and matches nothing — so searching with the
uppercased term and with the lowercased term differ. -/
theorem c5_counterexample :
    search_files (pyUpperS [eszett]) ["/L".toList] ssCatalog ≠
      search_files (pyLowerS [eszett]) ["/L".toList] ssCatalog := by decide

/-- Claim C5, amended: for every search term consisting of ASCII
characters, searching with the uppercased term returns exactly the same
results as searching with the lowercased term — `search_files` lowercases
the term before matching, and on ASCII lowering an uppercased string
equals lowering the lowercased string. -/
theorem c5_case_insensitive_ascii (t : List Char) (h : ∀ c ∈ t, c.toNat < 128)
    (flds : List (List Char))
    (af : List (Nat × List (List Char × List Char))) :
    search_files (pyUpperS t) flds af = search_files (pyLowerS t) flds af := by
  unfold search_files
  rw [pyLowerS_pyUpperS_ascii t h]

/-- Claim C5, witness: the amended statement at the concrete ASCII term
`"Boss"` over the `ss` catalog. -/
theorem c5_witness :
    search_files (pyUpperS "Boss".toList) ["/L".toList] ssCatalog =
      search_files (pyLowerS "Boss".toList) ["/L".toList] ssCatalog :=
  c5_case_insensitive_ascii "Boss".toList (by decide) ["/L".toList] ssCatalog

/-- Claim C6: rendering a file preview is total (the model returns a string for
every combination of effect outcomes — the Python `except` clause stops
any exception): when the conversion tool fails (non-zero exit) and the raw
UTF-8 read also fails, the text is the error placeholder embedding the
exception detail; when the tool invocation itself raises, likewise; and
when the file does not exist the text is the placeholder naming the
path. -/
theorem c6_preview_errors (ex : Bool) (plu : Except (List Char) (Int × List Char))
    (raw : Except (List Char) (List Char)) (path : List Char) :
    (∀ rc out e, ex = true → plu = .ok (rc, out) → rc ≠ 0 → raw = .error e →
      load_file_preview ex plu raw path = "无法读取文件内容: ".toList ++ e) ∧
    (∀ e, ex = true → plu = .error e →
      load_file_preview ex plu raw path = "无法读取文件内容: ".toList ++ e) ∧
    (ex = false → load_file_preview ex plu raw path = "文件不存在: ".toList ++ path) := by
  refine ⟨?_, ?_, ?_⟩
  · rintro rc out e rfl rfl hrc rfl
    simp [load_file_preview, hrc]
  · rintro e rfl rfl
    simp [load_file_preview]
  · rintro rfl
    simp [load_file_preview]

/-- Claim C6, witness: concrete failing outcomes — a non-zero tool exit with a
failing raw read yields the error placeholder with the exception detail,
and a missing file yields the placeholder naming the path. -/
theorem c6_witness :
    load_file_preview true (.ok (1, "x".toList)) (.error "boom".toList) "/p".toList
      = "无法读取文件内容: ".toList ++ "boom".toList ∧
    load_file_preview false (.ok (0, "x".toList)) (.ok "y".toList) "/p".toList
      = "文件不存在: ".toList ++ "/p".toList :=
  ⟨(c6_preview_errors true (.ok (1, "x".toList)) (.error "boom".toList) "/p".toList).1
      1 "x".toList "boom".toList rfl rfl (by decide) rfl,
   (c6_preview_errors false (.ok (0, "x".toList)) (.ok "y".toList) "/p".toList).2.2 rfl⟩

/-- Claim C8: when the conversion tool cannot process the file (non-zero exit)
but the raw UTF-8 read succeeds, the rendered text is identical to the
content of the direct read (the spec-side `directReadText`). -/
theorem c8_fallback (rc : Int) (out c path : List Char)
    (raw : Except (List Char) (List Char)) (hrc : rc ≠ 0) (hraw : raw = .ok c) :
    load_file_preview true (.ok (rc, out)) raw path = c ∧
    directReadText raw = some c := by
  subst hraw
  exact ⟨by simp [load_file_preview, hrc], rfl⟩

/-- Claim C8, witness: a concrete non-zero tool exit with readable UTF-8
content — the preview shows exactly the direct read's content. -/
theorem c8_witness :
    load_file_preview true (.ok (1, "conv".toList)) (.ok "raw".toList) "/q".toList
      = "raw".toList ∧
    directReadText (.ok "raw".toList) = some "raw".toList :=
  c8_fallback 1 "conv".toList "raw".toList "/q".toList (.ok "raw".toList)
    (by decide) rfl

theorem deleteLoop_eq (sel : List DelItem) (n : Nat) (es : List (List Char)) :
    deleteLoop (n, es) sel =
      (n + (sel.filter delOk).length, es ++ sel.filterMap delErr) := by
  induction sel generalizing n es with
  | nil => simp [deleteLoop]
  | cons it rest ih =>
    unfold deleteLoop
    cases hex : it.exists_ <;> cases hw : it.writable <;> cases hr : it.removeExc <;>
      simp [ih, delOk, delErr, hex, hw, hr] <;> omega

/-- Claim C7: for a confirmed delete over a non-empty selection, the loop
processes every selected file (success count and error list are the
filter/filterMap over the whole selection, so a failing file never aborts
the rest), a file succeeds exactly when it exists, is writable, and its
removal raises nothing (the checks run before removal), the state
afterwards is unconditionally the refreshed one (catalog reloaded, current
folder re-listed, search input and results cleared), and the dialog is the
success summary exactly when at least one file was deleted, the failure
summary otherwise. -/
theorem c7_delete (home : List Char) (fs : FsView) (currentRow : Nat)
    (st : UiState) (sel : List DelItem) (hsel : sel ≠ []) :
    (delete_file home fs currentRow st sel true).1.all_files
        = load_all_files (folders home) fs ∧
    (delete_file home fs currentRow st sel true).1.file_list
        = load_files (folders home) currentRow fs ∧
    (delete_file home fs currentRow st sel true).1.search_input = [] ∧
    (delete_file home fs currentRow st sel true).1.search_results = [] ∧
    deleteLoop (0, []) sel = ((sel.filter delOk).length, sel.filterMap delErr) ∧
    (∀ it ∈ sel, delOk it = true ↔
      (it.exists_ = true ∧ it.writable = true ∧ it.removeExc = none)) ∧
    (delete_file home fs currentRow st sel true).2 =
      some (if 0 < (sel.filter delOk).length
        then DeleteOutcome.resultInfo
          (successMsg (sel.filter delOk).length (sel.filterMap delErr))
        else DeleteOutcome.resultWarn (failMsg (sel.filterMap delErr))) := by
  have hne : sel.isEmpty = false := by
    cases sel with
    | nil => exact absurd rfl hsel
    | cons a l => rfl
  have hloop : deleteLoop (0, []) sel =
      ((sel.filter delOk).length, sel.filterMap delErr) := by
    simpa using deleteLoop_eq sel 0 []
  have hdf : delete_file home fs currentRow st sel true =
      (refresh_all home fs currentRow,
        some (if 0 < (sel.filter delOk).length
          then DeleteOutcome.resultInfo
            (successMsg (sel.filter delOk).length (sel.filterMap delErr))
          else DeleteOutcome.resultWarn (failMsg (sel.filterMap delErr)))) := by
    unfold delete_file
    rw [hne]
    simp only [Bool.false_eq_true, if_false, if_true, hloop]
    by_cases hc : 0 < (sel.filter delOk).length
    · rw [if_pos hc, if_pos hc]
    · rw [if_neg hc, if_neg hc]
  refine ⟨by rw [hdf]; rfl, by rw [hdf]; rfl, by rw [hdf]; rfl, by rw [hdf]; rfl,
    hloop, ?_, by rw [hdf]⟩
  intro it _
  simp [delOk, Option.isNone_iff_eq_none, and_assoc]

/-- A filesystem view in which no directory exists. -/
def fsEmpty : FsView := fun _ => { exists_ := false, listing := none }

/-- A concrete selection: one deletable file and one missing file. -/
def selW : List DelItem :=
  [{ name := "a.plist".toList, exists_ := true, writable := true, removeExc := none },
   { name := "b.plist".toList, exists_ := false, writable := true, removeExc := none }]

/-- Claim C7, witness: the confirmed delete of `selW` — the loop reports one
success and one per-file error (the missing file did not abort the batch),
the search state is cleared, and the success summary is shown. -/
theorem c7_witness :
    deleteLoop (0, []) selW = ((selW.filter delOk).length, selW.filterMap delErr) ∧
    (delete_file "/h".toList fsEmpty 0 (UiState.mk [] [] [] []) selW true).1.search_input
      = [] ∧
    (delete_file "/h".toList fsEmpty 0 (UiState.mk [] [] [] []) selW true).2 =
      some (if 0 < (selW.filter delOk).length
        then DeleteOutcome.resultInfo
          (successMsg (selW.filter delOk).length (selW.filterMap delErr))
        else DeleteOutcome.resultWarn (failMsg (selW.filterMap delErr))) :=
  ⟨(c7_delete "/h".toList fsEmpty 0 (UiState.mk [] [] [] []) selW
      (by decide)).2.2.2.2.1,
   (c7_delete "/h".toList fsEmpty 0 (UiState.mk [] [] [] []) selW
      (by decide)).2.2.1,
   (c7_delete "/h".toList fsEmpty 0 (UiState.mk [] [] [] []) selW
      (by decide)).2.2.2.2.2.2⟩

theorem load_all_getD (flds : List (List Char)) (fs : FsView) (i : Nat)
    (h : i < flds.length) :
    (load_all_files flds fs).getD i [] = procFolder fs (flds.getD i []) := by
  induction flds generalizing i with
  | nil => simp at h
  | cons p ps ih =>
    cases i with
    | zero => rfl
    | succ j => simpa [load_all_files] using ih j (Nat.lt_of_succ_lt_succ h)

theorem procFolder_empty (fs : FsView) (p : List Char)
    (h : (fs p).exists_ = false ∨ (fs p).listing = none) :
    procFolder fs p = [] := by
  unfold procFolder
  rcases h with h | h
  · simp [h]
  · cases hex : (fs p).exists_ <;> simp [h, hex]

theorem procFolder_mem (fs : FsView) (p : List Char) (e : List Char × List Char)
    (he : e ∈ procFolder fs p) :
    endsWithPlist e.1 = true ∧ e.2 = pathJoin p e.1 := by
  unfold procFolder at he
  by_cases hex : (fs p).exists_ = true
  · rw [if_pos hex] at he
    cases hl : (fs p).listing with
    | none => rw [hl] at he; simp at he
    | some files =>
      rw [hl] at he
      rcases List.mem_map.mp he with ⟨n, hn, rfl⟩
      exact ⟨(List.mem_filter.mp hn).2, rfl⟩
  · rw [if_neg hex] at he
    simp at he

/-- Claim C9: after `load_all_files` the catalog has one dictionary per
configured directory index 0‥4; an index whose directory does not exist
or whose listing raises `PermissionError` maps to the empty dictionary;
and every entry maps a `.plist` file name to
`os.path.join(folder_path, file)` for that index's folder path. -/
theorem c9_load_all (home : List Char) (fs : FsView) :
    (load_all_files (folders home) fs).length = 5 ∧
    ∀ i, i < 5 →
      (((fs ((folders home).getD i [])).exists_ = false ∨
        (fs ((folders home).getD i [])).listing = none) →
        (load_all_files (folders home) fs).getD i [] = []) ∧
      ∀ e ∈ (load_all_files (folders home) fs).getD i [],
        endsWithPlist e.1 = true ∧ e.2 = pathJoin ((folders home).getD i []) e.1 := by
  constructor
  · simp [load_all_files, folders]
  · intro i hi
    have hlen : i < (folders home).length := by
      simp only [folders, List.length_cons, List.length_nil]
      omega
    rw [load_all_getD (folders home) fs i hlen]
    exact ⟨procFolder_empty fs _, fun e he => procFolder_mem fs _ e he⟩

/-- Claim C9, witness: with a filesystem where no directory exists, index 0 of
the freshly loaded catalog is the empty dictionary. -/
theorem c9_witness :
    (load_all_files (folders "/h".toList) fsEmpty).getD 0 [] = [] :=
  ((c9_load_all "/h".toList fsEmpty).2 0 (by decide)).1 (Or.inl rfl)

/-- Claim C10: when the confirmation for a non-empty selection is answered
`No`, `delete_file` removes nothing and shows nothing: the UI state
(catalog, file list, search input, search results) is returned unchanged
and the refresh is not run. -/
theorem c10_delete_no (home : List Char) (fs : FsView) (currentRow : Nat)
    (st : UiState) (sel : List DelItem) (hsel : sel ≠ []) :
    delete_file home fs currentRow st sel false = (st, none) := by
  have hne : sel.isEmpty = false := by
    cases sel with
    | nil => exact absurd rfl hsel
    | cons a l => rfl
  unfold delete_file
  rw [hne]
  simp

/-- Claim C10, witness: a concrete `No` answer over the concrete selection —
the state comes back exactly as it went in, with no dialog. -/
theorem c10_witness :
    delete_file "/h".toList fsEmpty 0
      (UiState.mk [([("x.plist".toList, "/h/x.plist".toList)])] ["x.plist".toList]
        "x".toList []) selW false =
    ((UiState.mk [([("x.plist".toList, "/h/x.plist".toList)])] ["x.plist".toList]
        "x".toList []), none) :=
  c10_delete_no "/h".toList fsEmpty 0 _ selW (by decide)
